import Mathlib

/-!
Verification of the scholar_watcher core: fingerprinting, the seen-papers
store claim/release lifecycle, the notifier, and the per-keyword cycle
runner, shallowly embedded from `src/scholar_watcher.py`.
-/

set_option maxRecDepth 4096

deriving instance DecidableEq for Except

namespace ScholarWatcher

/-! ### UTF-8 encoding (Python's `str.encode("utf-8")`) -/

/-- UTF-8 encoding of a single character, as a list of byte values. -/
def utf8EncodeChar (c : Char) : List Nat :=
  let n := c.toNat
  if n < 0x80 then [n]
  else if n < 0x800 then
    [0xC0 ||| (n >>> 6), 0x80 ||| (n &&& 0x3F)]
  else if n < 0x10000 then
    [0xE0 ||| (n >>> 12), 0x80 ||| ((n >>> 6) &&& 0x3F), 0x80 ||| (n &&& 0x3F)]
  else
    [0xF0 ||| (n >>> 18), 0x80 ||| ((n >>> 12) &&& 0x3F),
     0x80 ||| ((n >>> 6) &&& 0x3F), 0x80 ||| (n &&& 0x3F)]

/-- UTF-8 bytes of a string. -/
def utf8Bytes (s : String) : List Nat :=
  (s.data.map utf8EncodeChar).flatten

/-! ### SHA-256 (`hashlib.sha256`), on byte lists, words as `Nat` mod 2^32 -/

def M32 : Nat := 4294967296

def add32 (a b : Nat) : Nat := (a + b) % M32

def rotr32 (n a : Nat) : Nat := ((a >>> n) ||| (a <<< (32 - n))) % M32

def not32 (a : Nat) : Nat := a ^^^ 4294967295

def bsig0 (x : Nat) : Nat := rotr32 2 x ^^^ rotr32 13 x ^^^ rotr32 22 x
def bsig1 (x : Nat) : Nat := rotr32 6 x ^^^ rotr32 11 x ^^^ rotr32 25 x
def ssig0 (x : Nat) : Nat := rotr32 7 x ^^^ rotr32 18 x ^^^ (x >>> 3)
def ssig1 (x : Nat) : Nat := rotr32 17 x ^^^ rotr32 19 x ^^^ (x >>> 10)

def chF (x y z : Nat) : Nat := (x &&& y) ^^^ (not32 x &&& z)
def majF (x y z : Nat) : Nat := (x &&& y) ^^^ (x &&& z) ^^^ (y &&& z)

/-- The 64 SHA-256 round constants. -/
def Kconst : List Nat :=
  [1116352408, 1899447441, 3049323471, 3921009573,
   961987163, 1508970993, 2453635748, 2870763221,
   3624381080, 310598401, 607225278, 1426881987,
   1925078388, 2162078206, 2614888103, 3248222580,
   3835390401, 4022224774, 264347078, 604807628,
   770255983, 1249150122, 1555081692, 1996064986,
   2554220882, 2821834349, 2952996808, 3210313671,
   3336571891, 3584528711, 113926993, 338241895,
   666307205, 773529912, 1294757372, 1396182291,
   1695183700, 1986661051, 2177026350, 2456956037,
   2730485921, 2820302411, 3259730800, 3345764771,
   3516065817, 3600352804, 4094571909, 275423344,
   430227734, 506948616, 659060556, 883997877,
   958139571, 1322822218, 1537002063, 1747873779,
   1955562222, 2024104815, 2227730452, 2361852424,
   2428436474, 2756734187, 3204031479, 3329325298]

/-- The eight working registers of the SHA-256 state. -/
structure H8 where
  a : Nat
  b : Nat
  c : Nat
  d : Nat
  e : Nat
  f : Nat
  g : Nat
  h : Nat
deriving Repr, DecidableEq

/-- SHA-256 initial hash value. -/
def initH : H8 :=
  ⟨1779033703, 3144134277, 1013904242, 2773480762,
   1359893119, 2600822924, 528734635, 1541459225⟩

/-- Pad the message: append 0x80, zero bytes to 56 mod 64, then the
bit length as 8 big-endian bytes. -/
def padMsg (msg : List Nat) : List Nat :=
  let L := msg.length
  let zeros := (119 - (L % 64)) % 64
  let lenBytes := (List.range 8).map fun i => ((8 * L) >>> ((7 - i) * 8)) % 256
  msg ++ [0x80] ++ List.replicate zeros 0 ++ lenBytes

/-- Big-endian byte-list to word. -/
def bytesToWord (bs : List Nat) : Nat := bs.foldl (fun acc b => acc * 256 + b) 0

/-- The sixteen 32-bit words of one 64-byte block. -/
def blockWords (block : List Nat) : List Nat :=
  (List.range 16).map fun i => bytesToWord ((block.drop (4 * i)).take 4)

/-- Split a padded message into its 64-byte blocks. -/
def blocksOf (l : List Nat) : List (List Nat) :=
  (List.range (l.length / 64)).map fun i => (l.drop (64 * i)).take 64

/-- Extend the message schedule by one word. -/
def scheduleStep (w : List Nat) : List Nat :=
  let t := w.length
  w ++ [add32 (add32 (ssig1 (w.getD (t - 2) 0)) (w.getD (t - 7) 0))
          (add32 (ssig0 (w.getD (t - 15) 0)) (w.getD (t - 16) 0))]

/-- The full 64-word message schedule of a block. -/
def schedule (w16 : List Nat) : List Nat :=
  (List.range 48).foldl (fun w _ => scheduleStep w) w16

/-- One SHA-256 round, consuming one (round constant, schedule word) pair. -/
def shaRound (st : H8) (kw : Nat × Nat) : H8 :=
  let t1 := add32 st.h (add32 (bsig1 st.e)
    (add32 (chF st.e st.f st.g) (add32 kw.1 kw.2)))
  let t2 := add32 (bsig0 st.a) (majF st.a st.b st.c)
  ⟨add32 t1 t2, st.a, st.b, st.c, add32 st.d t1, st.e, st.f, st.g⟩

/-- Compress one 64-byte block into the running hash. -/
def compress (h0 : H8) (block : List Nat) : H8 :=
  let w := schedule (blockWords block)
  let st := (Kconst.zip w).foldl shaRound h0
  ⟨add32 h0.a st.a, add32 h0.b st.b, add32 h0.c st.c, add32 h0.d st.d,
   add32 h0.e st.e, add32 h0.f st.f, add32 h0.g st.g, add32 h0.h st.h⟩

/-- SHA-256 of a byte list, as the eight final hash words. -/
def sha256 (msg : List Nat) : H8 :=
  (blocksOf (padMsg msg)).foldl compress initH

/-- Lowercase hex digit. -/
def hexDigit (n : Nat) : Char :=
  if n < 10 then Char.ofNat (48 + n) else Char.ofNat (87 + n)

/-- A 32-bit word as exactly eight lowercase hex characters. -/
def toHex8 (w : Nat) : String :=
  ⟨(List.range 8).map fun i => hexDigit ((w >>> ((7 - i) * 4)) % 16)⟩

/-- `hashlib.sha256(msg).hexdigest()`: 64 lowercase hex characters. -/
def sha256hex (msg : List Nat) : String :=
  let h := sha256 msg
  toHex8 h.a ++ toHex8 h.b ++ toHex8 h.c ++ toHex8 h.d ++
  toHex8 h.e ++ toHex8 h.f ++ toHex8 h.g ++ toHex8 h.h

/-! ### `_fingerprint` (src/scholar_watcher.py lines 128-130) -/

/-- The ASCII whitespace characters stripped by Python's `str.strip()`. -/
def isPySpace (c : Char) : Bool :=
  c == ' ' || c == '\t' || c == '\n' || c == '\x0d' ||
  c == '\x0b' || c == '\x0c'

/-- Python's `str.strip()`: remove leading and trailing whitespace. -/
def pyStrip (s : String) : String :=
  ⟨((s.data.dropWhile isPySpace).reverse.dropWhile isPySpace).reverse⟩

/-- The string `f"{title.strip()}|{authors.strip()}|{year.strip()}|{url.strip()}"`. -/
def fpBase (title authors year url : String) : String :=
  pyStrip title ++ "|" ++ pyStrip authors ++ "|" ++ pyStrip year ++ "|" ++ pyStrip url

/-- `_fingerprint`: SHA-256 hex digest of the UTF-8 encoding of the joined
trimmed fields. -/
def fingerprint (title authors year url : String) : String :=
  sha256hex (utf8Bytes (fpBase title authors year url))

/-! ### Data model: candidate results and the seen_papers store -/

/-- A candidate result dict as built by `fetch_scholar_results`. -/
structure Paper where
  title : String
  url : String
  authors : String
  year : String
deriving Repr, DecidableEq

/-- One row of the `seen_papers` table. -/
structure Row where
  kw_term : String
  fingerprint : String
  title : String
  url : String
  authors : String
  year : String
  first_seen : String
deriving Repr, DecidableEq

/-- The `seen_papers` table, as its list of rows. -/
abbrev Store := List Row

/-- Does the store hold a row with this (kw_term, fingerprint) pair?
(The `UNIQUE(kw_term, fingerprint)` constraint check.) -/
def hasPair (s : Store) (kw fp : String) : Bool :=
  s.any fun r => r.kw_term == kw && r.fingerprint == fp

/-- The row inserted by `process_keyword` for a freshly claimed candidate. -/
def mkRow (kw fp : String) (p : Paper) (now : String) : Row :=
  ⟨kw, fp, p.title, p.url, p.authors, p.year, now⟩

/-- Outcome of the `INSERT` under the uniqueness constraint. -/
inductive ClaimResult where
  | Claimed
  | AlreadySeen
deriving Repr, DecidableEq

/-- The claim operation: `INSERT INTO seen_papers ...` under
`UNIQUE(kw_term, fingerprint)`. If the pair exists the insert raises
`IntegrityError` (AlreadySeen, no change); otherwise the row is inserted. -/
def claim (s : Store) (kw fp : String) (p : Paper) (now : String) :
    Store × ClaimResult :=
  if hasPair s kw fp then (s, .AlreadySeen)
  else (s ++ [mkRow kw fp p now], .Claimed)

/-- The release operation:
`DELETE FROM seen_papers WHERE kw_term=? AND fingerprint=?`. -/
def release (s : Store) (kw fp : String) : Store :=
  s.filter fun r => !(r.kw_term == kw && r.fingerprint == fp)

/-- The (kw_term, fingerprint) key of every row, in order. -/
def pairKeys (s : Store) : List (String × String) :=
  s.map fun r => (r.kw_term, r.fingerprint)

/-- The uniqueness invariant enforced by `UNIQUE(kw_term, fingerprint)`:
no two rows share a (kw_term, fingerprint) pair. -/
def StoreOk (s : Store) : Prop := (pairKeys s).Nodup

/-- `n` successive claims of the same pair with no intervening release,
returning the final store and the list of results in order. -/
def claimSeq (kw fp : String) (p : Paper) (now : String) :
    Nat → Store → Store × List ClaimResult
  | 0, s => (s, [])
  | n + 1, s =>
      let (s', r) := claim s kw fp p now
      let (s'', rs) := claimSeq kw fp p now n s'
      (s'', r :: rs)

/-! ### Notifier: `send_to_discord` (lines 155-174) -/

/-- Why a notify attempt failed before/at delivery. -/
inductive NotifyError where
  | configMissing
  | httpError (status : Nat)
deriving Repr, DecidableEq

/-- The outbound HTTP request `send_to_discord` would make. -/
structure DiscordRequest where
  url : String
  content : String
deriving Repr, DecidableEq

/-- Python's `s or default` for strings: the default replaces the empty
(falsy) string. -/
def strOr (s dflt : String) : String := if s = "" then dflt else s

/-- `send_to_discord` up to the outbound `requests.post`: raises
`RuntimeError` when `DISCORD_WEBHOOK_URL` is empty, before any delivery
attempt; otherwise composes the message and produces the request. -/
def send_to_discord (webhookUrl : String) (keyword : String) (p : Paper) :
    Except NotifyError DiscordRequest :=
  if webhookUrl = "" then .error .configMissing
  else
    let title := strOr p.title "Untitled"
    let url := strOr p.url ""
    let authors := strOr p.authors "Unknown authors"
    let year := strOr p.year "Year n/a"
    let content :=
      "**New paper found** for **" ++ keyword ++ "**\n" ++
      "**" ++ title ++ "** (" ++ year ++ ")\n" ++
      "*" ++ authors ++ "*\n" ++
      url
    .ok ⟨webhookUrl, content⟩

/-! ### Cycle runner: `process_keyword` and `run_cycle` (lines 179-230)

The two external collaborators are oracles: `fetch` stands for
`fetch_scholar_results` (provider errors as `.error`), `notify` for the
full `send_to_discord` call including the HTTP delivery (any raised
exception as `.error`). -/

/-- The candidate loop of `process_keyword` (lines 183-211): for each
paper, compute the fingerprint and attempt the insert; on `Claimed`,
notify, and on notify failure delete the inserted row and re-raise,
aborting the loop; on `AlreadySeen`, skip. Returns the store and either
the accumulated `new_count` or the propagated error. -/
def fpOf (p : Paper) : String :=
  fingerprint p.title p.authors p.year p.url

def processPapers (notify : String → Paper → Except String Unit)
    (keyword now : String) :
    List Paper → Store → Nat → Store × Except String Nat
  | [], conn, newCount => (conn, .ok newCount)
  | p :: rest, conn, newCount =>
      let fp := fpOf p
      match claim conn keyword fp p now with
      | (conn', .Claimed) =>
          match notify keyword p with
          | .ok _ => processPapers notify keyword now rest conn' (newCount + 1)
          | .error e => (release conn' keyword fp, .error e)
      | (_, .AlreadySeen) =>
          processPapers notify keyword now rest conn newCount

/-- `process_keyword`: fetch the candidates (a provider error propagates
before any store work), then run the candidate loop from count 0. -/
def process_keyword (fetch : String → Except String (List Paper))
    (notify : String → Paper → Except String Unit)
    (now keyword : String) (conn : Store) : Store × Except String Nat :=
  match fetch keyword with
  | .error e => (conn, .error e)
  | .ok rows => processPapers notify keyword now rows conn 0

/-- The contribution of one keyword's outcome to the cycle total: a
caught error contributes nothing (run_cycle lines 224-227). -/
def okOr0 : Except String Nat → Nat
  | .ok k => k
  | .error _ => 0

/-- The keyword loop of `run_cycle` (lines 220-227): each keyword is
processed in turn; an error from `process_keyword` is caught and logged,
contributing nothing to the total, and the loop continues. -/
def runTerms (fetch : String → Except String (List Paper))
    (notify : String → Paper → Except String Unit) (now : String) :
    List String → Store → Store × Nat
  | [], store => (store, 0)
  | t :: ts, store =>
      let pr := process_keyword fetch notify now t store
      let rest := runTerms fetch notify now ts pr.1
      (rest.1, okOr0 pr.2 + rest.2)

/-- One row of the `keywords` table. -/
structure KwRow where
  id : Nat
  term : String
  created_at : String
deriving Repr, DecidableEq

/-- Application state: the `keywords` table and the `seen_papers` table,
plus the next AUTOINCREMENT id. -/
structure State where
  keywords : List KwRow
  seen : Store
  nextId : Nat
deriving Repr, DecidableEq

/-- Strict lexicographic order on byte lists. -/
def bytesLt : List Nat → List Nat → Bool
  | [], [] => false
  | [], _ :: _ => true
  | _ :: _, [] => false
  | a :: as, b :: bs => a < b || (a == b && bytesLt as bs)

/-- String comparison `a ≤ b` used by `ORDER BY term ASC`: SQLite's
BINARY collation compares the UTF-8 bytes lexicographically. -/
def strLe (a b : String) : Bool := !bytesLt (utf8Bytes b) (utf8Bytes a)

/-- Insert a string into an ascending list, keeping it sorted. -/
def insertAsc (x : String) : List String → List String
  | [] => [x]
  | y :: ys => if strLe x y then x :: y :: ys else y :: insertAsc x ys

/-- Sort a list of strings ascending (insertion sort). -/
def sortAsc (l : List String) : List String := l.foldr insertAsc []

/-- `SELECT term FROM keywords ORDER BY term ASC` (line 218). -/
def sortedTerms (st : State) : List String :=
  sortAsc (st.keywords.map KwRow.term)

/-- `run_cycle`: snapshot the keyword list in ascending order, process
each keyword with per-keyword error isolation, return the updated state
and the total new-item count. -/
def run_cycle (fetch : String → Except String (List Paper))
    (notify : String → Paper → Except String Unit)
    (now : String) (st : State) : State × Nat :=
  let r := runTerms fetch notify now (sortedTerms st) st.seen
  ({ st with seen := r.1 }, r.2)

/-! ### Control surface: `add_keyword` (lines 332-344) and
`delete_keyword` (lines 347-356) -/

/-- `add_keyword`: strip the term; if nonempty, insert it unless the
`UNIQUE` constraint on term fires (`IntegrityError` → no-op). -/
def add_keyword (st : State) (term now : String) : State :=
  let t := pyStrip term
  if t = "" then st
  else if st.keywords.any (fun r => r.term == t) then st
  else { st with keywords := st.keywords ++ [⟨st.nextId, t, now⟩],
                 nextId := st.nextId + 1 }

/-- `delete_keyword`: look the id up; if present, delete the keyword row
and every seen_papers row whose kw_term is that keyword's term. -/
def delete_keyword (st : State) (id : Nat) : State :=
  match st.keywords.find? (fun r => r.id == id) with
  | some r =>
      { st with
        keywords := st.keywords.filter fun q => !(q.id == id),
        seen := st.seen.filter fun row => !(row.kw_term == r.term) }
  | none => st

/-! ### Derived notions and concrete scenarios used by the theorems -/

/-- The rows of the store owned by one keyword term. -/
def rowsFor (s : Store) (kw : String) : Store :=
  s.filter fun r => r.kw_term == kw

/-- A second, spec-side definition, following the spec's words (§4.4
step 2b and the `run_cycle` contract): the number of candidates of one
keyword, in provider order, whose claim returns `Claimed` — the items
that would be newly delivered when every notification succeeds. Used to
compare `processPapers`' returned count against the spec's counting. -/
def specFreshCount (kw now : String) : List Paper → Store → Nat
  | [], _ => 0
  | p :: rest, s =>
      if hasPair s kw (fpOf p) then specFreshCount kw now rest s
      else specFreshCount kw now rest (s ++ [mkRow kw (fpOf p) p now]) + 1

/-- Concrete candidate: first paper of the failure scenario. -/
def p1 : Paper := ⟨"t1", "u1", "a1", "2024"⟩

/-- Concrete candidate: second paper of the failure scenario. -/
def p2 : Paper := ⟨"t2", "u2", "a2", "2025"⟩

/-- Concrete provider: keyword "k" yields two candidates, any other
keyword raises. -/
def fetchW : String → Except String (List Paper) :=
  fun t => if t = "k" then .ok [p1, p2] else .error "provider"

/-- Concrete notifier: delivery fails exactly on the paper titled "t2". -/
def notifyW : String → Paper → Except String Unit :=
  fun _ p => if p.title = "t2" then .error "down" else .ok ()

/-- Concrete notifier that always succeeds. -/
def notifyAllOk : String → Paper → Except String Unit := fun _ _ => .ok ()

/-- Concrete state with the single keyword "k" and an empty store. -/
def stW : State := ⟨[⟨1, "k", "c"⟩], [], 2⟩

/-- Concrete provider for the isolation scenario: keyword "a" raises,
every other keyword yields one candidate. -/
def fetchI : String → Except String (List Paper) :=
  fun t => if t = "a" then .error "provider" else .ok [p1]

/-- Concrete state with keywords "a" and "b" and an empty store. -/
def stI : State := ⟨[⟨1, "a", "c"⟩, ⟨2, "b", "c"⟩], [], 3⟩

/-- Concrete seen_papers row with a literal fingerprint. -/
def rowW : Row := ⟨"k", "f", "t", "u", "a", "y", "s"⟩

/-- Concrete state with keyword "k" and one seen row for it. -/
def stD : State := ⟨[⟨1, "k", "c"⟩], [rowW], 2⟩

/-! ### Store lemmas -/

theorem hasPair_iff {s : Store} {kw fp : String} :
    hasPair s kw fp = true ↔ ∃ r ∈ s, r.kw_term = kw ∧ r.fingerprint = fp := by
  simp [hasPair, List.any_eq_true]

theorem hasPair_false_iff {s : Store} {kw fp : String} :
    hasPair s kw fp = false ↔ ∀ r ∈ s, ¬(r.kw_term = kw ∧ r.fingerprint = fp) := by
  simp [hasPair, List.any_eq_false]

theorem pairKeys_append (s t : Store) :
    pairKeys (s ++ t) = pairKeys s ++ pairKeys t := by
  simp [pairKeys]

theorem mem_pairKeys {s : Store} {kw fp : String} :
    (kw, fp) ∈ pairKeys s ↔ hasPair s kw fp = true := by
  simp [pairKeys, hasPair, List.any_eq_true, List.mem_map]

theorem claim_pos {s : Store} {kw fp : String} (p : Paper) (now : String)
    (h : hasPair s kw fp = true) : claim s kw fp p now = (s, .AlreadySeen) := by
  simp [claim, h]

theorem claim_neg {s : Store} {kw fp : String} (p : Paper) (now : String)
    (h : hasPair s kw fp = false) :
    claim s kw fp p now = (s ++ [mkRow kw fp p now], .Claimed) := by
  simp [claim, h]

theorem hasPair_append (s t : Store) (kw fp : String) :
    hasPair (s ++ t) kw fp = (hasPair s kw fp || hasPair t kw fp) := by
  simp [hasPair]

theorem hasPair_mkRow_self (kw fp : String) (p : Paper) (now : String) :
    hasPair [mkRow kw fp p now] kw fp = true := by
  simp [hasPair, mkRow]

theorem claimSeq_alreadySeen {s : Store} {kw fp : String} (p : Paper)
    (now : String) (h : hasPair s kw fp = true) :
    ∀ n, claimSeq kw fp p now n s = (s, List.replicate n .AlreadySeen) := by
  intro n
  induction n with
  | zero => rfl
  | succ n ih => simp [claimSeq, claim_pos p now h, ih, List.replicate_succ]

theorem storeOk_filter {s : Store} (p : Row → Bool) (h : StoreOk s) :
    StoreOk (s.filter p) := by
  exact ((List.filter_sublist s).map _).nodup h

theorem storeOk_release {s : Store} (kw fp : String) (h : StoreOk s) :
    StoreOk (release s kw fp) :=
  storeOk_filter _ h

theorem storeOk_claim {s : Store} (kw fp : String) (p : Paper) (now : String)
    (h : StoreOk s) : StoreOk (claim s kw fp p now).1 := by
  by_cases hp : hasPair s kw fp = true
  · simp [claim_pos p now hp, h]
  · rw [claim_neg p now (by simpa using hp)]
    have hmem : (kw, fp) ∉ pairKeys s := fun hc => hp (mem_pairKeys.mp hc)
    simp only [StoreOk, pairKeys_append]
    simp [List.Nodup, List.pairwise_append, pairKeys, mkRow]
    refine ⟨h, ?_⟩
    intro a ha h1 h2
    exact hmem (by
      simp only [pairKeys]
      rw [← h1, ← h2]
      exact List.mem_map_of_mem _ ha)

/-! ### Release lemmas -/

theorem hasPair_release_self (s : Store) (kw fp : String) :
    hasPair (release s kw fp) kw fp = false := by
  simp [hasPair, release, List.any_filter]
  intro x _
  tauto

theorem mem_release {s : Store} {kw fp : String} {r : Row} :
    r ∈ release s kw fp ↔ r ∈ s ∧ ¬(r.kw_term = kw ∧ r.fingerprint = fp) := by
  simp [release, List.mem_filter, not_and]
  intro _
  tauto

theorem release_eq_self {s : Store} {kw fp : String}
    (h : hasPair s kw fp = false) : release s kw fp = s := by
  refine List.filter_eq_self.mpr ?_
  intro r hr
  have := hasPair_false_iff.mp h r hr
  simp only [not_and] at this
  simp [this]
  tauto

theorem release_release (s : Store) (kw fp : String) :
    release (release s kw fp) kw fp = release s kw fp := by
  simp [release, List.filter_filter]

theorem claim_after_release (s : Store) (kw fp : String) (p : Paper)
    (now : String) : (claim (release s kw fp) kw fp p now).2 = .Claimed := by
  rw [claim_neg p now (hasPair_release_self s kw fp)]

/-! ### processPapers / runTerms unfolding lemmas -/

theorem processPapers_nil (notify : String → Paper → Except String Unit)
    (kw now : String) (conn : Store) (c : Nat) :
    processPapers notify kw now [] conn c = (conn, .ok c) := rfl

theorem processPapers_cons_seen {notify : String → Paper → Except String Unit}
    {kw now : String} {p : Paper} {conn : Store}
    (h : hasPair conn kw (fpOf p) = true) (rest : List Paper) (c : Nat) :
    processPapers notify kw now (p :: rest) conn c =
      processPapers notify kw now rest conn c := by
  simp [processPapers, claim_pos p now h]

theorem processPapers_cons_new_ok {notify : String → Paper → Except String Unit}
    {kw now : String} {p : Paper} {conn : Store}
    (h : hasPair conn kw (fpOf p) = false) (hn : notify kw p = .ok ())
    (rest : List Paper) (c : Nat) :
    processPapers notify kw now (p :: rest) conn c =
      processPapers notify kw now rest
        (conn ++ [mkRow kw (fpOf p) p now]) (c + 1) := by
  simp [processPapers, claim_neg p now h, hn]

theorem processPapers_cons_new_err {notify : String → Paper → Except String Unit}
    {kw now : String} {p : Paper} {conn : Store} {e : String}
    (h : hasPair conn kw (fpOf p) = false) (hn : notify kw p = .error e)
    (rest : List Paper) (c : Nat) :
    processPapers notify kw now (p :: rest) conn c =
      (release (conn ++ [mkRow kw (fpOf p) p now]) kw (fpOf p), .error e) := by
  simp [processPapers, claim_neg p now h, hn]

theorem runTerms_nil (fetch : String → Except String (List Paper))
    (notify : String → Paper → Except String Unit) (now : String) (s : Store) :
    runTerms fetch notify now [] s = (s, 0) := rfl

theorem runTerms_cons (fetch : String → Except String (List Paper))
    (notify : String → Paper → Except String Unit) (now t : String)
    (ts : List String) (s : Store) :
    runTerms fetch notify now (t :: ts) s =
      ((runTerms fetch notify now ts
          (process_keyword fetch notify now t s).1).1,
        okOr0 (process_keyword fetch notify now t s).2 +
          (runTerms fetch notify now ts
            (process_keyword fetch notify now t s).1).2) := rfl

theorem runTerms_append (fetch : String → Except String (List Paper))
    (notify : String → Paper → Except String Unit) (now : String)
    (ts1 ts2 : List String) (s : Store) :
    runTerms fetch notify now (ts1 ++ ts2) s =
      ((runTerms fetch notify now ts2 (runTerms fetch notify now ts1 s).1).1,
        (runTerms fetch notify now ts1 s).2 +
          (runTerms fetch notify now ts2
            (runTerms fetch notify now ts1 s).1).2) := by
  induction ts1 generalizing s with
  | nil => simp [runTerms_nil]
  | cons t ts ih =>
      simp only [List.cons_append, runTerms_cons, ih]
      ring_nf

/-! ### Invariant preservation -/

theorem storeOk_processPapers (notify : String → Paper → Except String Unit)
    (kw now : String) :
    ∀ (papers : List Paper) (conn : Store) (c : Nat), StoreOk conn →
      StoreOk (processPapers notify kw now papers conn c).1 := by
  intro papers
  induction papers with
  | nil => intro conn c h; simpa [processPapers_nil] using h
  | cons p rest ih =>
      intro conn c h
      by_cases hp : hasPair conn kw (fpOf p) = true
      · rw [processPapers_cons_seen hp]
        exact ih conn c h
      · have hp' : hasPair conn kw (fpOf p) = false := by simpa using hp
        have hok : StoreOk (conn ++ [mkRow kw (fpOf p) p now]) := by
          have := storeOk_claim (s := conn) kw (fpOf p) p now h
          rwa [claim_neg p now hp'] at this
        cases hn : notify kw p with
        | ok u =>
            cases u
            rw [processPapers_cons_new_ok hp' hn]
            exact ih _ _ hok
        | error e =>
            rw [processPapers_cons_new_err hp' hn]
            exact storeOk_release _ _ hok

theorem storeOk_process_keyword (fetch : String → Except String (List Paper))
    (notify : String → Paper → Except String Unit) (now kw : String)
    (conn : Store) (h : StoreOk conn) :
    StoreOk (process_keyword fetch notify now kw conn).1 := by
  unfold process_keyword
  cases fetch kw with
  | error e => exact h
  | ok rows => exact storeOk_processPapers notify kw now rows conn 0 h

theorem storeOk_runTerms (fetch : String → Except String (List Paper))
    (notify : String → Paper → Except String Unit) (now : String) :
    ∀ (ts : List String) (s : Store), StoreOk s →
      StoreOk (runTerms fetch notify now ts s).1 := by
  intro ts
  induction ts with
  | nil => intro s h; simpa [runTerms_nil] using h
  | cons t ts ih =>
      intro s h
      rw [runTerms_cons]
      exact ih _ (storeOk_process_keyword fetch notify now t s h)

theorem storeOk_run_cycle (fetch : String → Except String (List Paper))
    (notify : String → Paper → Except String Unit) (now : String)
    (st : State) (h : StoreOk st.seen) :
    StoreOk (run_cycle fetch notify now st).1.seen :=
  storeOk_runTerms fetch notify now (sortedTerms st) st.seen h

/-! ### Frame lemmas: processing one keyword never touches another
keyword's rows -/

theorem rowsFor_append (s t : Store) (kw : String) :
    rowsFor (s ++ t) kw = rowsFor s kw ++ rowsFor t kw := by
  simp [rowsFor]

theorem rowsFor_mkRow_other {keyword kw : String} (h : keyword ≠ kw)
    (fp : String) (p : Paper) (now : String) :
    rowsFor [mkRow keyword fp p now] kw = [] := by
  simp [rowsFor, mkRow, h]

theorem rowsFor_release_other {keyword kw : String} (h : keyword ≠ kw)
    (s : Store) (fp : String) :
    rowsFor (release s keyword fp) kw = rowsFor s kw := by
  simp only [rowsFor, release, List.filter_filter]
  apply List.filter_congr
  intro r _
  by_cases hk : r.kw_term = kw
  · have hne : ¬kw = keyword := fun hh => h hh.symm
    simp [hk, hne]
  · simp [hk]

theorem hasPair_eq_rowsFor (s : Store) (kw fp : String) :
    hasPair s kw fp = (rowsFor s kw).any fun r => r.fingerprint == fp := by
  simp only [hasPair, rowsFor, List.any_filter]

theorem processPapers_rowsFor_other
    (notify : String → Paper → Except String Unit)
    {keyword kw : String} (now : String) (h : keyword ≠ kw) :
    ∀ (papers : List Paper) (conn : Store) (c : Nat),
      rowsFor (processPapers notify keyword now papers conn c).1 kw =
        rowsFor conn kw := by
  intro papers
  induction papers with
  | nil => intro conn c; simp [processPapers_nil]
  | cons p rest ih =>
      intro conn c
      by_cases hp : hasPair conn keyword (fpOf p) = true
      · rw [processPapers_cons_seen hp]
        exact ih conn c
      · have hp' : hasPair conn keyword (fpOf p) = false := by simpa using hp
        cases hn : notify keyword p with
        | ok u =>
            cases u
            rw [processPapers_cons_new_ok hp' hn, ih, rowsFor_append,
              rowsFor_mkRow_other h, List.append_nil]
        | error e =>
            rw [processPapers_cons_new_err hp' hn]
            simp only [rowsFor_release_other h, rowsFor_append,
              rowsFor_mkRow_other h, List.append_nil]

theorem process_keyword_rowsFor_other
    (fetch : String → Except String (List Paper))
    (notify : String → Paper → Except String Unit)
    (now : String) {keyword kw : String} (h : keyword ≠ kw) (conn : Store) :
    rowsFor (process_keyword fetch notify now keyword conn).1 kw =
      rowsFor conn kw := by
  unfold process_keyword
  cases fetch keyword with
  | error e => rfl
  | ok rows => exact processPapers_rowsFor_other notify now h rows conn 0

theorem runTerms_rowsFor_notmem
    (fetch : String → Except String (List Paper))
    (notify : String → Paper → Except String Unit) (now : String)
    {kw : String} :
    ∀ (ts : List String), kw ∉ ts → ∀ (s : Store),
      rowsFor (runTerms fetch notify now ts s).1 kw = rowsFor s kw := by
  intro ts
  induction ts with
  | nil => intro _ s; simp [runTerms_nil]
  | cons t ts ih =>
      intro hmem s
      have ht : t ≠ kw := fun hh => hmem (hh ▸ List.mem_cons_self t ts)
      have hts : kw ∉ ts := fun hh => hmem (List.mem_cons_of_mem t hh)
      rw [runTerms_cons, ih hts, process_keyword_rowsFor_other fetch notify now ht]

theorem hasPair_runTerms_notmem
    (fetch : String → Except String (List Paper))
    (notify : String → Paper → Except String Unit) (now : String)
    {kw : String} {ts : List String} (h : kw ∉ ts) (s : Store) (fp : String) :
    hasPair (runTerms fetch notify now ts s).1 kw fp = hasPair s kw fp := by
  rw [hasPair_eq_rowsFor, hasPair_eq_rowsFor,
    runTerms_rowsFor_notmem fetch notify now ts h s]

/-! ### Characterizations of processPapers outcomes -/

theorem processPapers_error (notify : String → Paper → Except String Unit)
    (kw now : String) :
    ∀ {papers : List Paper} {conn : Store} {c : Nat} {s' : Store} {e : String},
      processPapers notify kw now papers conn c = (s', .error e) →
      ∃ p ∈ papers, notify kw p = .error e ∧
        hasPair s' kw (fpOf p) = false := by
  intro papers
  induction papers with
  | nil =>
      intro conn c s' e h
      simp [processPapers_nil] at h
  | cons p rest ih =>
      intro conn c s' e h
      by_cases hp : hasPair conn kw (fpOf p) = true
      · rw [processPapers_cons_seen hp] at h
        obtain ⟨q, hq, h1, h2⟩ := ih h
        exact ⟨q, List.mem_cons_of_mem p hq, h1, h2⟩
      · have hp' : hasPair conn kw (fpOf p) = false := by simpa using hp
        cases hn : notify kw p with
        | ok u =>
            cases u
            rw [processPapers_cons_new_ok hp' hn] at h
            obtain ⟨q, hq, h1, h2⟩ := ih h
            exact ⟨q, List.mem_cons_of_mem p hq, h1, h2⟩
        | error e' =>
            rw [processPapers_cons_new_err hp' hn] at h
            obtain ⟨h1, h2⟩ := Prod.mk.injEq .. ▸ h
            refine ⟨p, List.mem_cons_self p rest, ?_, ?_⟩
            · rw [hn]
              cases h2
              rfl
            · rw [← h1]
              exact hasPair_release_self _ kw (fpOf p)

theorem processPapers_append_ok (notify : String → Paper → Except String Unit)
    (kw now : String) :
    ∀ {l : List Paper} {conn : Store} {c : Nat} {s1 : Store} {m : Nat},
      processPapers notify kw now l conn c = (s1, .ok m) →
      ∀ rest, processPapers notify kw now (l ++ rest) conn c =
        processPapers notify kw now rest s1 m := by
  intro l
  induction l with
  | nil =>
      intro conn c s1 m h rest
      simp [processPapers_nil] at h
      rw [List.nil_append, h.1, h.2]
  | cons p l ih =>
      intro conn c s1 m h rest
      by_cases hp : hasPair conn kw (fpOf p) = true
      · rw [processPapers_cons_seen hp] at h
        rw [List.cons_append, processPapers_cons_seen hp, ih h]
      · have hp' : hasPair conn kw (fpOf p) = false := by simpa using hp
        cases hn : notify kw p with
        | ok u =>
            cases u
            rw [processPapers_cons_new_ok hp' hn] at h
            rw [List.cons_append, processPapers_cons_new_ok hp' hn, ih h]
        | error e =>
            rw [processPapers_cons_new_err hp' hn] at h
            simp at h

theorem processPapers_ok_count (notify : String → Paper → Except String Unit)
    (kw now : String) :
    ∀ {papers : List Paper} {conn : Store} {c : Nat} {s' : Store} {n : Nat},
      processPapers notify kw now papers conn c = (s', .ok n) →
      n = c + specFreshCount kw now papers conn := by
  intro papers
  induction papers with
  | nil =>
      intro conn c s' n h
      simp [processPapers_nil] at h
      simp [specFreshCount, h.2]
  | cons p rest ih =>
      intro conn c s' n h
      by_cases hp : hasPair conn kw (fpOf p) = true
      · rw [processPapers_cons_seen hp] at h
        rw [ih h]
        simp [specFreshCount, hp]
      · have hp' : hasPair conn kw (fpOf p) = false := by simpa using hp
        cases hn : notify kw p with
        | ok u =>
            cases u
            rw [processPapers_cons_new_ok hp' hn] at h
            rw [ih h]
            simp [specFreshCount, hp']
            omega
        | error e =>
            rw [processPapers_cons_new_err hp' hn] at h
            simp at h

theorem add_keyword_seen (st : State) (term now : String) :
    (add_keyword st term now).seen = st.seen := by
  unfold add_keyword
  dsimp only
  split
  · rfl
  · split <;> rfl

/-! ### Digest shape -/

theorem toHex8_length (w : Nat) : (toHex8 w).length = 8 := by
  simp [toHex8, String.length]

theorem sha256hex_length (msg : List Nat) : (sha256hex msg).length = 64 := by
  simp [sha256hex, String.length_append, toHex8_length]

/-! ### Claim theorems -/

/-- C5: the fingerprint function is pure and deterministic: it returns
the SHA-256 hex digest (fixed length 64) of the UTF-8 encoding of the
string obtained by stripping each field and joining
title|authors|year|url with a literal | separator; repeated calls on
identical inputs yield the identical digest. The last two conjuncts
anchor the embedded SHA-256 against the published digest of "abc" and
against `hashlib.sha256(b"|||").hexdigest()`, the fingerprint of four
empty fields. -/
theorem fingerprint_spec :
    (∀ title authors year url : String,
      fingerprint title authors year url =
        sha256hex (utf8Bytes (pyStrip title ++ "|" ++ pyStrip authors ++ "|" ++
          pyStrip year ++ "|" ++ pyStrip url))) ∧
    (∀ title authors year url : String,
      (fingerprint title authors year url).length = 64) ∧
    (∀ title authors year url : String,
      fingerprint title authors year url = fingerprint title authors year url) ∧
    sha256hex (utf8Bytes "abc") =
      "ba7816bf8f01cfea414140de5dae2223b00361a396177a9cb410ff61f20015ad" ∧
    fingerprint "" "" "" "" =
      "be5be69f55e91af25e54ecc2154d4da359b67b3b27e25f5cc0b3ff54eb74dff3" := by
  refine ⟨fun t a y u => rfl, fun t a y u => sha256hex_length _,
    fun t a y u => rfl, by decide, by decide⟩

/-- C6 is refuted: two tuples whose title and authors fields differ
after stripping can still collide, because the | join is ambiguous when
a field itself contains |: ("a|b", "c") and ("a", "b|c") join to the
same base string. -/
theorem fingerprint_separation_counterexample :
    pyStrip "a|b" ≠ pyStrip "a" ∧ pyStrip "c" ≠ pyStrip "b|c" ∧
    fingerprint "a|b" "c" "y" "u" = fingerprint "a" "b|c" "y" "u" := by
  refine ⟨by decide, by decide, ?_⟩
  have h : fpBase "a|b" "c" "y" "u" = fpBase "a" "b|c" "y" "u" := by decide
  unfold fingerprint
  rw [h]

/-- C6 (amended): the fingerprint is a function of the four fields after
trimming alone — if every field agrees after trimming, the fingerprints
are equal (equivalently, differing fingerprints imply some field differs
after trimming). The original claim's converse direction fails when the
joined strings coincide, see the counterexample. -/
theorem fingerprint_separation_amended (t a y u t' a' y' u' : String)
    (ht : pyStrip t = pyStrip t') (ha : pyStrip a = pyStrip a')
    (hy : pyStrip y = pyStrip y') (hu : pyStrip u = pyStrip u') :
    fingerprint t a y u = fingerprint t' a' y' u' := by
  unfold fingerprint fpBase
  rw [ht, ha, hy, hu]

/-- Witness for C6 (amended) at a concrete input: " x" and "x " agree
after stripping, so their fingerprints agree. -/
theorem fingerprint_separation_amended_witness :
    pyStrip " x" = pyStrip "x " ∧
    fingerprint " x" "a" "y" "u" = fingerprint "x " "a" "y" "u" :=
  ⟨by decide,
    fingerprint_separation_amended " x" "a" "y" "u" "x " "a" "y" "u"
      (by decide) rfl rfl rfl⟩

/-- C7: release deletes exactly the rows of the given
(keyword, fingerprint) pair, is a no-op on an absent pair, is
idempotent, and a released pair can be claimed again. -/
theorem release_idempotent_reenabling :
    (∀ (s : Store) (kw fp : String),
      hasPair (release s kw fp) kw fp = false) ∧
    (∀ (s : Store) (kw fp : String) (r : Row),
      r ∈ release s kw fp ↔
        r ∈ s ∧ ¬(r.kw_term = kw ∧ r.fingerprint = fp)) ∧
    (∀ (s : Store) (kw fp : String),
      hasPair s kw fp = false → release s kw fp = s) ∧
    (∀ (s : Store) (kw fp : String),
      release (release s kw fp) kw fp = release s kw fp) ∧
    (∀ (s : Store) (kw fp : String) (p : Paper) (now : String),
      (claim (release s kw fp) kw fp p now).2 = .Claimed) :=
  ⟨hasPair_release_self,
   fun _ _ _ _ => mem_release,
   fun _ _ _ h => release_eq_self h,
   release_release,
   claim_after_release⟩

/-- Witness for C7 at a concrete input: releasing a pair not in the
store leaves the store unchanged. -/
theorem release_idempotent_reenabling_witness :
    hasPair [rowW] "x" "g" = false ∧ release [rowW] "x" "g" = [rowW] :=
  ⟨by decide, release_idempotent_reenabling.2.2.1 [rowW] "x" "g" (by decide)⟩

/-- C2: at-most-once persisted record: on a pair not in the store, a
sequence of n+1 claims with no intervening release returns exactly one
Claimed (the first, inserting one row) and then only AlreadySeen with no
further change; a claim on a present pair makes no change; and the
(kw_term, fingerprint) uniqueness invariant is preserved by claim,
release, run_cycle and delete_keyword. -/
theorem at_most_once_claim :
    (∀ (s : Store) (kw fp : String) (p : Paper) (now : String) (n : Nat),
      hasPair s kw fp = false →
      claimSeq kw fp p now (n + 1) s =
        (s ++ [mkRow kw fp p now],
          .Claimed :: List.replicate n .AlreadySeen)) ∧
    (∀ (s : Store) (kw fp : String) (p : Paper) (now : String),
      hasPair s kw fp = true → claim s kw fp p now = (s, .AlreadySeen)) ∧
    (∀ (s : Store) (kw fp : String) (p : Paper) (now : String),
      StoreOk s → StoreOk (claim s kw fp p now).1) ∧
    (∀ (s : Store) (kw fp : String), StoreOk s → StoreOk (release s kw fp)) ∧
    (∀ (fetch : String → Except String (List Paper))
       (notify : String → Paper → Except String Unit) (now : String)
       (st : State), StoreOk st.seen →
      StoreOk (run_cycle fetch notify now st).1.seen) ∧
    (∀ (st : State) (id : Nat), StoreOk st.seen →
      StoreOk (delete_keyword st id).seen) := by
  refine ⟨?_, fun s kw fp p now h => claim_pos p now h,
    fun s kw fp p now h => storeOk_claim kw fp p now h,
    fun s kw fp h => storeOk_release kw fp h,
    storeOk_run_cycle, ?_⟩
  · intro s kw fp p now n h
    have h2 : hasPair (s ++ [mkRow kw fp p now]) kw fp = true := by
      rw [hasPair_append, hasPair_mkRow_self]
      simp
    simp [claimSeq, claim_neg p now h, claimSeq_alreadySeen p now h2]
  · intro st id h
    unfold delete_keyword
    cases st.keywords.find? (fun r => r.id == id) with
    | none => exact h
    | some r => exact storeOk_filter _ h

/-- Witness for C2 at a concrete input: three successive claims of a
fresh pair yield Claimed then AlreadySeen twice, with exactly one row
inserted. -/
theorem at_most_once_claim_witness :
    hasPair [] "k" "f" = false ∧
    claimSeq "k" "f" p1 "now" 3 [] =
      ([mkRow "k" "f" p1 "now"], [.Claimed, .AlreadySeen, .AlreadySeen]) :=
  ⟨by decide, by
    have h := at_most_once_claim.1 [] "k" "f" p1 "now" 2 (by decide)
    simpa [List.replicate] using h⟩

/-- C9: with an empty webhook URL every notify call fails
deterministically, before any delivery attempt (no request is
produced); when configured, the composed message embeds the keyword and
substitutes "Untitled" for an empty title, "Year n/a" for an empty
year and "Unknown authors" for an empty authors string. -/
theorem notifier_contract :
    (∀ (kw : String) (p : Paper),
      send_to_discord "" kw p = .error .configMissing) ∧
    (∀ (url kw : String) (p : Paper), url ≠ "" →
      send_to_discord url kw p = .ok ⟨url,
        "**New paper found** for **" ++ kw ++ "**\n" ++
        "**" ++ (if p.title = "" then "Untitled" else p.title) ++ "** (" ++
        (if p.year = "" then "Year n/a" else p.year) ++ ")\n" ++
        "*" ++ (if p.authors = "" then "Unknown authors" else p.authors) ++
        "*\n" ++ (if p.url = "" then "" else p.url)⟩) := by
  constructor
  · intro kw p
    simp [send_to_discord]
  · intro url kw p h
    simp only [send_to_discord, if_neg h, strOr]

/-- Witness for C9 at a concrete input: a configured URL and a paper
with every field empty produce the fully defaulted message. -/
theorem notifier_contract_witness :
    ("https://h" : String) ≠ "" ∧
    send_to_discord "https://h" "k" ⟨"", "", "", ""⟩ =
      .ok ⟨"https://h",
        "**New paper found** for **k**\n**Untitled** (Year n/a)\n*Unknown authors*\n"⟩ := by
  refine ⟨by decide, ?_⟩
  rw [notifier_contract.2 "https://h" "k" ⟨"", "", "", ""⟩ (by decide)]
  decide

/-- C8: deleting a keyword removes its keyword row and every seen row
owned by its term; re-adding the term leaves the seen table untouched,
and any claim for that term — in particular a fingerprint seen before
the delete — returns Claimed again. -/
theorem cascade_delete (st : State) (id : Nat) (k : KwRow)
    (hfind : st.keywords.find? (fun r => r.id == id) = some k) :
    (∀ q ∈ (delete_keyword st id).keywords, q.id ≠ id) ∧
    (∀ row ∈ (delete_keyword st id).seen, row.kw_term ≠ k.term) ∧
    (∀ now' : String,
      (add_keyword (delete_keyword st id) k.term now').seen =
        (delete_keyword st id).seen) ∧
    (∀ (fp : String) (p : Paper) (now2 : String),
      (claim (delete_keyword st id).seen k.term fp p now2).2 = .Claimed) := by
  have hdel : delete_keyword st id =
      { st with
        keywords := st.keywords.filter fun q => !(q.id == id),
        seen := st.seen.filter fun row => !(row.kw_term == k.term) } := by
    unfold delete_keyword
    rw [hfind]
  rw [hdel]
  refine ⟨?_, ?_, ?_, ?_⟩
  · intro q hq
    have := (List.mem_filter.mp hq).2
    simpa using this
  · intro row hrow
    have := (List.mem_filter.mp hrow).2
    simpa using this
  · intro now'
    exact add_keyword_seen _ _ _
  · intro fp p now2
    have hp : hasPair (st.seen.filter fun row => !(row.kw_term == k.term))
        k.term fp = false := by
      rw [hasPair_false_iff]
      intro r hr hc
      have := (List.mem_filter.mp hr).2
      simp [hc.1] at this
    rw [claim_neg p now2 hp]

/-- Witness for C8 at a concrete input: after deleting keyword "k", the
fingerprint "f" that was seen before the delete is claimable again. -/
theorem cascade_delete_witness :
    stD.keywords.find? (fun r => r.id == 1) = some ⟨1, "k", "c"⟩ ∧
    hasPair stD.seen "k" "f" = true ∧
    (claim (delete_keyword stD 1).seen "k" "f" p1 "now").2 = .Claimed :=
  ⟨by decide, by decide,
    (cascade_delete stD 1 ⟨1, "k", "c"⟩ (by decide)).2.2.2 "f" p1 "now"⟩

/-- C4: cycle isolation: if processing one keyword of the cycle's
snapshot raises (provider fetch failure or any other error), that error
is caught, the keyword contributes nothing, and the remaining keywords
are still processed from the resulting store, with their newly
delivered items still counted in the returned total. -/
theorem cycle_isolation (fetch : String → Except String (List Paper))
    (notify : String → Paper → Except String Unit) (now : String)
    (st : State) (pre post : List String) (bad e : String)
    (hterms : sortedTerms st = pre ++ bad :: post)
    (hfail : (process_keyword fetch notify now bad
        (runTerms fetch notify now pre st.seen).1).2 = .error e) :
    (run_cycle fetch notify now st).2 =
      (runTerms fetch notify now pre st.seen).2 +
        (runTerms fetch notify now post
          (process_keyword fetch notify now bad
            (runTerms fetch notify now pre st.seen).1).1).2 ∧
    (run_cycle fetch notify now st).1.seen =
      (runTerms fetch notify now post
        (process_keyword fetch notify now bad
          (runTerms fetch notify now pre st.seen).1).1).1 := by
  constructor
  · show (runTerms fetch notify now (sortedTerms st) st.seen).2 = _
    rw [hterms, runTerms_append, runTerms_cons]
    simp [hfail, okOr0]
  · show (runTerms fetch notify now (sortedTerms st) st.seen).1 = _
    rw [hterms, runTerms_append, runTerms_cons]

/-- Witness for C4 at a concrete input: keyword "a" raises a provider
error, keyword "b" is still processed and counted. -/
theorem cycle_isolation_witness :
    sortedTerms stI = [] ++ "a" :: ["b"] ∧
    (process_keyword fetchI notifyAllOk "now" "a"
      (runTerms fetchI notifyAllOk "now" [] stI.seen).1).2 = .error "provider" ∧
    (run_cycle fetchI notifyAllOk "now" stI).2 =
      (runTerms fetchI notifyAllOk "now" [] stI.seen).2 +
        (runTerms fetchI notifyAllOk "now" ["b"]
          (process_keyword fetchI notifyAllOk "now" "a"
            (runTerms fetchI notifyAllOk "now" [] stI.seen).1).1).2 ∧
    (run_cycle fetchI notifyAllOk "now" stI).2 = 1 :=
  ⟨by decide, by decide,
    (cycle_isolation fetchI notifyAllOk "now" stI [] ["b"] "a" "provider"
      (by decide) (by decide)).1,
    by decide⟩

/-- C1: claim-notify atomicity: if during a cycle a keyword's candidate
was claimed and its notification failed, then that candidate's
(keyword, fingerprint) pair was released before the error propagated —
it is absent from the keyword's resulting store and from the store
after the whole cycle completes — and the cycle's returned total does
not count it (the failed keyword contributes nothing). -/
theorem claim_notify_atomicity (fetch : String → Except String (List Paper))
    (notify : String → Paper → Except String Unit) (now : String)
    (st : State) (pre post : List String) (kw : String)
    (rows : List Paper) (s1 : Store) (e : String)
    (hterms : sortedTerms st = pre ++ kw :: post)
    (hpost : kw ∉ post)
    (hfetch : fetch kw = .ok rows)
    (hfail : processPapers notify kw now rows
        (runTerms fetch notify now pre st.seen).1 0 = (s1, .error e)) :
    ∃ p ∈ rows, notify kw p = .error e ∧
      hasPair s1 kw (fpOf p) = false ∧
      hasPair (run_cycle fetch notify now st).1.seen kw (fpOf p) = false ∧
      (run_cycle fetch notify now st).2 =
        (runTerms fetch notify now pre st.seen).2 +
          (runTerms fetch notify now post s1).2 := by
  obtain ⟨p, hpmem, hn, habs⟩ := processPapers_error notify kw now hfail
  have hpk : process_keyword fetch notify now kw
      (runTerms fetch notify now pre st.seen).1 = (s1, .error e) := by
    unfold process_keyword
    rw [hfetch]
    exact hfail
  have hseen : (run_cycle fetch notify now st).1.seen =
      (runTerms fetch notify now post s1).1 := by
    show (runTerms fetch notify now (sortedTerms st) st.seen).1 = _
    rw [hterms, runTerms_append, runTerms_cons, hpk]
  have htot : (run_cycle fetch notify now st).2 =
      (runTerms fetch notify now pre st.seen).2 +
        (runTerms fetch notify now post s1).2 := by
    show (runTerms fetch notify now (sortedTerms st) st.seen).2 = _
    rw [hterms, runTerms_append, runTerms_cons, hpk]
    simp [okOr0]
  refine ⟨p, hpmem, hn, habs, ?_, htot⟩
  rw [hseen, hasPair_runTerms_notmem fetch notify now hpost s1 (fpOf p)]
  exact habs

/-- Witness for C1 at a concrete input: in the scenario where "k"'s
second candidate's notification fails after its claim succeeded, the
failing pair is absent from the cycle's final store and the cycle total
is 0. -/
theorem claim_notify_atomicity_witness :
    sortedTerms stW = [] ++ "k" :: [] ∧
    fetchW "k" = .ok [p1, p2] ∧
    processPapers notifyW "k" "now" [p1, p2]
      (runTerms fetchW notifyW "now" [] stW.seen).1 0 =
      ([mkRow "k" (fpOf p1) p1 "now"], .error "down") ∧
    hasPair (run_cycle fetchW notifyW "now" stW).1.seen "k" (fpOf p2) = false ∧
    (run_cycle fetchW notifyW "now" stW).2 = 0 := by
  have hfail : processPapers notifyW "k" "now" [p1, p2]
      (runTerms fetchW notifyW "now" [] stW.seen).1 0 =
      ([mkRow "k" (fpOf p1) p1 "now"], .error "down") := by decide
  obtain ⟨p, hpmem, hn, habs, hfinal, htot⟩ :=
    claim_notify_atomicity fetchW notifyW "now" stW [] [] "k" [p1, p2]
      [mkRow "k" (fpOf p1) p1 "now"] "down" (by decide) (by decide)
      (by decide) hfail
  have hp2 : p = p2 := by
    have hmem : p = p1 ∨ p = p2 := by simpa using hpmem
    rcases hmem with h | h
    · exact absurd (h ▸ hn) (by decide)
    · exact h
  refine ⟨by decide, by decide, hfail, hp2 ▸ hfinal, ?_⟩
  rw [htot]
  decide

/-- C10: within one keyword, a notify failure on a claimed candidate
stops the candidate loop: the outcome is the released store and the
propagated error, the same whatever candidates follow the failing one
(none of them is claimed or notified this cycle), while the remaining
keywords of the cycle are processed normally from that store. -/
theorem notify_failure_stops_keyword
    (notify : String → Paper → Except String Unit) (kw now : String)
    (l : List Paper) (p : Paper) (s1 : Store) (m : Nat) (e : String)
    (conn : Store)
    (hpref : processPapers notify kw now l conn 0 = (s1, .ok m))
    (hclaim : hasPair s1 kw (fpOf p) = false)
    (hnote : notify kw p = .error e) :
    (∀ r : List Paper,
      processPapers notify kw now (l ++ p :: r) conn 0 =
        (release (s1 ++ [mkRow kw (fpOf p) p now]) kw (fpOf p), .error e)) ∧
    (∀ (fetch : String → Except String (List Paper)) (ts : List String)
       (r : List Paper), fetch kw = .ok (l ++ p :: r) →
      runTerms fetch notify now (kw :: ts) conn =
        ((runTerms fetch notify now ts
            (release (s1 ++ [mkRow kw (fpOf p) p now]) kw (fpOf p))).1,
          (runTerms fetch notify now ts
            (release (s1 ++ [mkRow kw (fpOf p) p now]) kw (fpOf p))).2)) := by
  have hone : ∀ r : List Paper,
      processPapers notify kw now (l ++ p :: r) conn 0 =
        (release (s1 ++ [mkRow kw (fpOf p) p now]) kw (fpOf p), .error e) := by
    intro r
    rw [processPapers_append_ok notify kw now hpref (p :: r),
      processPapers_cons_new_err hclaim hnote]
  refine ⟨hone, ?_⟩
  intro fetch ts r hf
  have h1 : process_keyword fetch notify now kw conn =
      (release (s1 ++ [mkRow kw (fpOf p) p now]) kw (fpOf p), .error e) := by
    unfold process_keyword
    rw [hf]
    exact hone r
  rw [runTerms_cons, h1]
  simp [okOr0]

/-- Witness for C10 at a concrete input: with candidate p2's
notification failing after p1 was delivered, appending a further
candidate after p2 leaves the keyword's outcome unchanged — the loop
stopped at p2. -/
theorem notify_failure_stops_keyword_witness :
    processPapers notifyW "k" "now" [p1] [] 0 =
      ([mkRow "k" (fpOf p1) p1 "now"], .ok 1) ∧
    hasPair [mkRow "k" (fpOf p1) p1 "now"] "k" (fpOf p2) = false ∧
    notifyW "k" p2 = .error "down" ∧
    processPapers notifyW "k" "now" ([p1] ++ p2 :: [p2]) [] 0 =
      (release ([mkRow "k" (fpOf p1) p1 "now"] ++ [mkRow "k" (fpOf p2) p2 "now"])
        "k" (fpOf p2), .error "down") := by
  have h1 : processPapers notifyW "k" "now" [p1] [] 0 =
      ([mkRow "k" (fpOf p1) p1 "now"], .ok 1) := by decide
  have h2 : hasPair [mkRow "k" (fpOf p1) p1 "now"] "k" (fpOf p2) = false := by
    decide
  have h3 : notifyW "k" p2 = .error "down" := by decide
  exact ⟨h1, h2, h3,
    (notify_failure_stops_keyword notifyW "k" "now" [p1] p2
      [mkRow "k" (fpOf p1) p1 "now"] 1 "down" [] h1 h2 h3).1 [p2]⟩

/-- C3 is refuted: in the concrete scenario, candidate p1 of keyword
"k" is claimed and its notification succeeds (it is newly delivered:
its row is in the cycle's final store), yet run_cycle returns 0,
because the later notify failure on p2 discards the keyword's
accumulated count. -/
theorem run_cycle_count_counterexample :
    (claim ([] : Store) "k" (fpOf p1) p1 "now").2 = .Claimed ∧
    notifyW "k" p1 = .ok () ∧
    hasPair (run_cycle fetchW notifyW "now" stW).1.seen "k" (fpOf p1) = true ∧
    (run_cycle fetchW notifyW "now" stW).2 = 0 :=
  ⟨by decide, by decide, by decide, by decide⟩

/-- C3 (amended): run_cycle returns the sum over the cycle's snapshot
keywords where a keyword whose processing completes without error
contributes its count of candidates whose claim returned Claimed (the
spec-side fresh count), and a keyword whose processing raises
contributes 0 — even when candidates earlier in that keyword were
claimed and successfully notified. -/
theorem run_cycle_count_amended :
    (∀ (notify : String → Paper → Except String Unit) (kw now : String)
       (papers : List Paper) (conn s' : Store) (n : Nat),
      processPapers notify kw now papers conn 0 = (s', .ok n) →
      n = specFreshCount kw now papers conn) ∧
    (∀ (fetch : String → Except String (List Paper))
       (notify : String → Paper → Except String Unit) (now t : String)
       (ts : List String) (s : Store),
      (runTerms fetch notify now (t :: ts) s).2 =
        okOr0 (process_keyword fetch notify now t s).2 +
          (runTerms fetch notify now ts
            (process_keyword fetch notify now t s).1).2) ∧
    (∀ (fetch : String → Except String (List Paper))
       (notify : String → Paper → Except String Unit) (now : String)
       (st : State),
      (run_cycle fetch notify now st).2 =
        (runTerms fetch notify now (sortedTerms st) st.seen).2) := by
  refine ⟨?_, ?_, ?_⟩
  · intro notify kw now papers conn s' n h
    have := processPapers_ok_count notify kw now h
    simpa using this
  · intro fetch notify now t ts s
    rw [runTerms_cons]
  · intro fetch notify now st
    rfl

/-- Witness for C3 (amended) at a concrete input: a batch with a
duplicate candidate yields count 2, equal to the spec-side fresh
count. -/
theorem run_cycle_count_amended_witness :
    processPapers notifyAllOk "k" "now" [p1, p2, p1] [] 0 =
      ([mkRow "k" (fpOf p1) p1 "now", mkRow "k" (fpOf p2) p2 "now"], .ok 2) ∧
    2 = specFreshCount "k" "now" [p1, p2, p1] [] :=
  ⟨by decide,
    run_cycle_count_amended.1 notifyAllOk "k" "now" [p1, p2, p1] []
      [mkRow "k" (fpOf p1) p1 "now", mkRow "k" (fpOf p2) p2 "now"] 2 (by decide)⟩

end ScholarWatcher
